import Mathlib

/-!
Verification of the dog-breed gallery selection / gallery state machine,
shallowly embedded from src/app/page.tsx.

The embedding models the pure cores of the event handlers of the Home
component (fetchBreeds, fetchImages, handleBreedSelection, handleSearch,
loadRandomBreeds, the BreedSelector filter) together with a small-step
event semantics for the surrounding React state: user interactions fire
handlers synchronously, while each in-flight fetchImages call is recorded
as the snapshot of selectedBreeds it closed over, to be settled later by a
resolution event in an arbitrary order.
-/

namespace DogGallery

/-- An entry of the gallery, the object literal built in fetchImages. -/
structure ImageEntry where
  url : String
  breed : String
deriving DecidableEq

/-- Char-wise lowercasing, modelling the JS toLowerCase calls on the ASCII
breed names and search terms this app manipulates. -/
def jsToLower (s : String) : String := String.mk (s.data.map Char.toLower)

/-- Does the first list start with the second? Helper for the JS
String includes model. -/
def charsStartWith : List Char → List Char → Bool
  | _, [] => true
  | [], _ :: _ => false
  | a :: as, b :: bs => a == b && charsStartWith as bs

/-- Substring containment on char lists. -/
def charsContain (hay needle : List Char) : Bool :=
  match hay with
  | [] => charsStartWith [] needle
  | c :: t => charsStartWith (c :: t) needle || charsContain t needle

/-- JS String includes: substring containment. -/
def strIncludes (hay needle : String) : Bool := charsContain hay.data needle.data

/-- The BreedSelector filter:
breeds.filter(breed => breed.toLowerCase().includes(searchTerm)). -/
def filteredBreeds (breeds : List String) (searchTerm : String) : List String :=
  breeds.filter fun breed => strIncludes (jsToLower breed) searchTerm

/-- The pure core of fetchBreeds: Object.keys(data.message).sort(), i.e. the
top-level keys of the catalog response sorted lexicographically ascending. -/
def fetchBreeds (keys : List String) : List String :=
  List.insertionSort (fun a b => a ≤ b) keys

/-- Promise.all over already-settled outcomes; none is a rejected promise,
and a single rejection rejects the whole join. -/
def promiseAll {α : Type} : List (Option α) → Option (List α)
  | [] => some []
  | none :: _ => none
  | some a :: os =>
    match promiseAll os with
    | some as => some (a :: as)
    | none => none

/-- The merge step of fetchImages:
imageResults.flatMap((result, index) =>
  result.message.map(url => \x7b url, breed: selectedBreeds[index] \x7d)). -/
def allImagesOf (selectedBreeds : List String) (imageResults : List (List String)) :
    List ImageEntry :=
  imageResults.enum.flatMap fun p =>
    p.2.map fun url => ImageEntry.mk url (selectedBreeds.getD p.1 "")

/-- fetchImages as a function of the per-breed responses api (none models a
failed fetch or malformed payload): one request per selected breed, joined
by Promise.all, then merged. -/
def fetchImages (selectedBreeds : List String) (api : String → Option (List String)) :
    Option (List ImageEntry) :=
  (promiseAll (selectedBreeds.map api)).map (allImagesOf selectedBreeds)

/-- The gallery a fully successful recompute commits for selection sel when
breed b answers imgs b: each breed, in selection (insertion) order,
contributes its URLs tagged with the breed name. -/
def galleryFor (imgs : String → List String) (sel : List String) : List ImageEntry :=
  sel.flatMap fun b => (imgs b).map fun url => ImageEntry.mk url b

/-- handleBreedSelection:
prev.includes(breed) ? prev.filter(b => b !== breed) : [...prev, breed]. -/
def handleBreedSelection (prev : List String) (breed : String) : List String :=
  if prev.contains breed then prev.filter (fun b => b != breed) else prev ++ [breed]

/-- handleSearch stores the lowercased input value. -/
def handleSearch (value : String) : String := jsToLower value

/-- loadRandomBreeds: [...breeds].sort(randomComparator).slice(0, 3); the
engine-dependent shuffle outcome is passed in as shuffled. -/
def loadRandomBreeds (shuffled : List String) : List String := shuffled.take 3

/-- The state hooks of the Home component (theme and showBreedNames are
presentation-only and omitted), plus the selection snapshots captured by
in-flight fetchImages calls. -/
structure AppState where
  breeds : List String
  selectedBreeds : List String
  searchTerm : String
  images : List ImageEntry
  error : Option String
  pending : List (List String)
deriving DecidableEq

/-- Initial hook values. -/
def initState : AppState :=
  { breeds := [], selectedBreeds := [], searchTerm := "", images := [],
    error := none, pending := [] }

/-- The useEffect on selectedBreeds: a non-empty new selection launches
fetchImages, which snapshots the selection; an empty one clears the gallery
at once, issuing no request. -/
def applySelection (s : AppState) (newSel : List String) : AppState :=
  if newSel.length > 0 then
    { s with selectedBreeds := newSel, pending := s.pending ++ [newSel] }
  else
    { s with selectedBreeds := newSel, images := [] }

/-- Observable events: user interactions and the settling of outstanding
fetches. resolveOk i imgs settles the i-th in-flight image batch with breed
b answering imgs b; resolveErr i settles it with a rejection. -/
inductive Ev where
  | toggle (breed : String)
  | search (value : String)
  | loadRandom (shuffled : List String)
  | resolveOk (i : Nat) (imgs : String → List String)
  | resolveErr (i : Nat)
  | breedsOk (keys : List String)
  | breedsErr

/-- One transition of the UI state machine. Note that setImages in the
source is unconditional: no generation check guards the commit of a
resolved batch, and nothing cancels a batch whose selection was superseded. -/
def step (s : AppState) : Ev → AppState
  | .toggle breed => applySelection s (handleBreedSelection s.selectedBreeds breed)
  | .search value => { s with searchTerm := handleSearch value }
  | .loadRandom shuffled => applySelection s (loadRandomBreeds shuffled)
  | .resolveOk i imgs =>
    match s.pending[i]? with
    | some snap =>
      { s with images := allImagesOf snap (snap.map imgs),
               pending := s.pending.eraseIdx i }
    | none => s
  | .resolveErr i =>
    match s.pending[i]? with
    | some _ =>
      { s with error := some "Error fetching images",
               pending := s.pending.eraseIdx i }
    | none => s
  | .breedsOk keys => { s with breeds := fetchBreeds keys }
  | .breedsErr => { s with error := some "Error fetching breeds" }

/-- Run a sequence of events. -/
def run (s : AppState) : List Ev → AppState
  | [] => s
  | e :: es => run (step s e) es

/-- User-driven operations, for runs in which every recompute settles
successfully before the next interaction. -/
inductive UserOp where
  | toggle (breed : String)
  | search (value : String)
  | loadRandom (shuffled : List String)
  | setBreeds (keys : List String)

/-- The event fired by a user operation. -/
def toEv : UserOp → Ev
  | .toggle b => .toggle b
  | .search v => .search v
  | .loadRandom l => .loadRandom l
  | .setBreeds k => .breedsOk k

/-- Settle the oldest outstanding batch successfully; no-op when none is in
flight. -/
def settle (imgs : String → List String) (s : AppState) : AppState :=
  step s (.resolveOk 0 imgs)

/-- One user operation followed by an immediate successful settling of the
recompute it triggered, if any. -/
def syncStep (imgs : String → List String) (s : AppState) (op : UserOp) : AppState :=
  settle imgs (step s (toEv op))

/-- A sequential, error-free run: each operation settles before the next. -/
def syncRun (imgs : String → List String) (s : AppState) (ops : List UserOp) : AppState :=
  ops.foldl (syncStep imgs) s

/-- Sample gallery responses used for concrete runs. -/
def urls3 (b : String) : List String := [b ++ "-1", b ++ "-2", b ++ "-3"]

/-- A state with one selected breed and its recompute still in flight. -/
def s1 : AppState := step initState (.toggle "akita")

/-- The message field of a parsed catalog response body: an object mapping
breed names to sub-breed arrays on a 2xx success, or a plain string as in
the endpoint JSON error body for a non-2xx status. fetchBreeds never
inspects response.ok or the status: any parsed body reaches
setBreeds(Object.keys(data.message).sort()). -/
inductive JsMessage where
  | obj (keys : List String)
  | str (s : String)

/-- JS Object.keys applied to the message value: the own enumerable keys of
an object, or the index strings of a string. -/
def jsObjectKeys : JsMessage → List String
  | .obj keys => keys
  | .str s => (List.range s.length).map (fun n => toString n)

/-- The merge step applied to a fully successful batch yields the per-breed
concatenation, in selection order. Generalized over the enumeration base. -/
theorem flatMap_enumFrom_eq (imgs : String → List String) (full : List String) :
    ∀ (sub : List String) (n : Nat), full.drop n = sub →
      ((sub.map imgs).enumFrom n).flatMap
          (fun p => p.2.map fun url => ImageEntry.mk url (full.getD p.1 "")) =
        galleryFor imgs sub := by
  intro sub
  induction sub with
  | nil => intro n _; rfl
  | cons b t ih =>
    intro n hdrop
    have h0 : full[n]? = some b := by
      have h := List.getElem?_drop full n 0
      rw [hdrop] at h
      simpa using h.symm
    have hb : full.getD n "" = b := by
      simp [List.getD_eq_getElem?_getD, h0]
    have ht : full.drop (n + 1) = t := by
      have h := List.drop_drop 1 n full
      rw [hdrop] at h
      simpa using h.symm
    simp only [List.map_cons, List.enumFrom_cons, List.flatMap_cons, hb,
      ih (n + 1) ht, galleryFor]

/-- On total success the committed gallery is the selection-ordered
concatenation of per-breed results. -/
theorem allImagesOf_success (imgs : String → List String) (sel : List String) :
    allImagesOf sel (sel.map imgs) = galleryFor imgs sel := by
  have h := flatMap_enumFrom_eq imgs sel sel 0 rfl
  simpa [allImagesOf, List.enum] using h

/-- Entry count of a successful gallery when every breed answers 3 URLs. -/
theorem galleryFor_length (imgs : String → List String) (sel : List String)
    (h3 : ∀ b ∈ sel, (imgs b).length = 3) :
    (galleryFor imgs sel).length = 3 * sel.length := by
  induction sel with
  | nil => rfl
  | cons b t ih =>
    have hb : (imgs b).length = 3 := h3 b (List.mem_cons_self b t)
    have ht := ih fun x hx => h3 x (List.mem_cons_of_mem b hx)
    simp only [galleryFor, List.flatMap_cons, List.length_append, List.length_map] at *
    rw [hb, ht, List.length_cons]
    omega

/-- Every committed entry is tagged with a breed of the committed snapshot. -/
theorem galleryFor_breed_mem (imgs : String → List String) (sel : List String)
    (e : ImageEntry) (he : e ∈ galleryFor imgs sel) : e.breed ∈ sel := by
  rcases List.mem_flatMap.mp he with ⟨b, hb, hmem⟩
  rcases List.mem_map.mp hmem with ⟨u, _, rfl⟩
  exact hb

/-- Permuting the selection permutes the resulting gallery. -/
theorem galleryFor_perm (imgs : String → List String) {l₁ l₂ : List String}
    (p : l₁.Perm l₂) : (galleryFor imgs l₁).Perm (galleryFor imgs l₂) := by
  induction p with
  | nil => exact List.Perm.refl _
  | cons x _ ih =>
    simp only [galleryFor, List.flatMap_cons] at *
    exact List.Perm.append_left _ ih
  | swap x y l =>
    simp only [galleryFor, List.flatMap_cons, ← List.append_assoc]
    exact List.Perm.append_right _ List.perm_append_comm
  | trans _ _ ih₁ ih₂ => exact ih₁.trans ih₂

/-- A single rejected promise rejects the whole join. -/
theorem promiseAll_none {α : Type} (l : List (Option α)) (h : none ∈ l) :
    promiseAll l = none := by
  induction l with
  | nil => cases h
  | cons o os ih =>
    rcases List.mem_cons.mp h with h1 | h2
    · rw [← h1, promiseAll]
    · cases o with
      | none => rw [promiseAll]
      | some a => rw [promiseAll, ih h2]

/-- A join of settled fulfilled promises collects all results. -/
theorem promiseAll_all_some (imgs : String → List String) (sel : List String) :
    promiseAll (sel.map fun b => some (imgs b)) = some (sel.map imgs) := by
  induction sel with
  | nil => rfl
  | cons b t ih => rw [List.map_cons, promiseAll, ih]; rfl

/-- A fully successful fetchImages returns the selection-ordered gallery. -/
theorem fetchImages_success (imgs : String → List String) (sel : List String) :
    fetchImages sel (fun b => some (imgs b)) = some (galleryFor imgs sel) := by
  simp [fetchImages, promiseAll_all_some, allImagesOf_success]

/-- If any per-breed fetch fails, fetchImages yields no partial result. -/
theorem fetchImages_fail (sel : List String) (api : String → Option (List String))
    (h : ∃ b ∈ sel, api b = none) : fetchImages sel api = none := by
  rcases h with ⟨b, hb, hnone⟩
  have hm : (none : Option (List String)) ∈ sel.map api := by
    rw [← hnone]
    exact List.mem_map_of_mem api hb
  simp [fetchImages, promiseAll_none _ hm]

/-- Running a concatenation of event lists runs them in sequence. -/
theorem run_append (s : AppState) (es fs : List Ev) :
    run s (es ++ fs) = run (run s es) fs := by
  induction es generalizing s with
  | nil => rfl
  | cons e t ih => exact ih (step s e)

/-- The JS prev.includes(breed) test agrees with list membership. -/
theorem contains_eq_true_iff (l : List String) (b : String) :
    l.contains b = true ↔ b ∈ l := by
  simp

/-- Toggling an unselected breed appends it at the end. -/
theorem handleBreedSelection_not_mem (prev : List String) (b : String) (h : b ∉ prev) :
    handleBreedSelection prev b = prev ++ [b] := by
  simp [handleBreedSelection, h]

/-- Toggling a selected breed filters out every occurrence of it. -/
theorem handleBreedSelection_mem (prev : List String) (b : String) (h : b ∈ prev) :
    handleBreedSelection prev b = prev.filter (fun x => x != b) := by
  simp [handleBreedSelection, h]

/-- The toggled-off breed is gone from the filtered selection. -/
theorem not_mem_filter_ne (l : List String) (b : String) :
    b ∉ l.filter (fun x => x != b) := by
  intro h
  rcases List.mem_filter.mp h with ⟨_, hbne⟩
  simp at hbne

/-- Filtering out an absent breed changes nothing. -/
theorem filter_ne_of_not_mem (l : List String) (b : String) (h : b ∉ l) :
    l.filter (fun x => x != b) = l :=
  List.filter_eq_self.mpr fun _ hx => bne_iff_ne.mpr fun hxb => h (hxb ▸ hx)

/-- Double toggle of an unselected breed is the identity. -/
theorem handleBreedSelection_twice_not_mem (prev : List String) (b : String)
    (h : b ∉ prev) : handleBreedSelection (handleBreedSelection prev b) b = prev := by
  rw [handleBreedSelection_not_mem prev b h,
    handleBreedSelection_mem _ b (by simp),
    List.filter_append, filter_ne_of_not_mem prev b h]
  simp

/-- Double toggle of a selected breed moves it to the last position. -/
theorem handleBreedSelection_twice_mem (prev : List String) (b : String) (h : b ∈ prev) :
    handleBreedSelection (handleBreedSelection prev b) b
      = prev.filter (fun x => x != b) ++ [b] := by
  rw [handleBreedSelection_mem prev b h]
  exact handleBreedSelection_not_mem _ b (not_mem_filter_ne prev b)

/-- Moving a selected breed to the end permutes a duplicate-free selection. -/
theorem filter_ne_append_perm (prev : List String) (b : String) (hnd : prev.Nodup)
    (hb : b ∈ prev) : (prev.filter (fun x => x != b) ++ [b]).Perm prev := by
  induction prev with
  | nil => cases hb
  | cons x t ih =>
    rcases List.nodup_cons.mp hnd with ⟨hxt, hndt⟩
    by_cases hxb : x = b
    · subst hxb
      rw [show List.filter (fun y => y != x) (x :: t)
            = List.filter (fun y => y != x) t from by simp,
        filter_ne_of_not_mem t x hxt]
      exact List.perm_append_singleton x t
    · have hbt : b ∈ t := by
        rcases List.mem_cons.mp hb with h | h
        · exact absurd h.symm hxb
        · exact h
      rw [show List.filter (fun y => y != b) (x :: t)
            = x :: List.filter (fun y => y != b) t from by simp [hxb],
        List.cons_append]
      exact (ih hndt hbt).cons x

/-- Toggling preserves freedom from duplicates. -/
theorem handleBreedSelection_nodup (prev : List String) (b : String) (hnd : prev.Nodup) :
    (handleBreedSelection prev b).Nodup := by
  by_cases h : b ∈ prev
  · rw [handleBreedSelection_mem prev b h]
    exact List.Nodup.filter _ hnd
  · rw [handleBreedSelection_not_mem prev b h]
    exact List.nodup_append.mpr
      ⟨hnd, List.nodup_singleton b, List.disjoint_singleton.mpr h⟩

/-- Double toggle returns a duplicate-free selection up to permutation. -/
theorem handleBreedSelection_twice_perm (prev : List String) (b : String)
    (hnd : prev.Nodup) :
    (handleBreedSelection (handleBreedSelection prev b) b).Perm prev := by
  by_cases h : b ∈ prev
  · rw [handleBreedSelection_twice_mem prev b h]
    exact filter_ne_append_perm prev b hnd h
  · rw [handleBreedSelection_twice_not_mem prev b h]

/-- applySelection always installs the new selection. -/
theorem applySelection_selectedBreeds (s : AppState) (newSel : List String) :
    (applySelection s newSel).selectedBreeds = newSel := by
  by_cases h : newSel.length > 0 <;> simp [applySelection, h]

/-- Settling with nothing in flight does nothing. -/
theorem settle_no_pending (imgs : String → List String) (s : AppState)
    (h : s.pending = []) : settle imgs s = s := by
  simp [settle, step, h]

/-- A selection change settled at once: no batch left in flight, the new
selection installed, and the gallery recomputed from it (or cleared). -/
theorem settle_applySelection (imgs : String → List String) (s : AppState)
    (newSel : List String) (h1 : s.pending = []) :
    (settle imgs (applySelection s newSel)).pending = []
    ∧ (settle imgs (applySelection s newSel)).selectedBreeds = newSel
    ∧ ((settle imgs (applySelection s newSel)).images = galleryFor imgs newSel
        ∨ ((settle imgs (applySelection s newSel)).images = [] ∧ newSel = [])) := by
  cases newSel with
  | nil =>
    refine ⟨?_, ?_, Or.inr ⟨?_, rfl⟩⟩ <;> simp [settle, step, applySelection, h1]
  | cons x t =>
    have hlen : (x :: t).length > 0 := by simp
    refine ⟨?_, ?_, Or.inl ?_⟩
    · simp [settle, step, applySelection, hlen, h1]
    · simp [settle, step, applySelection, hlen, h1]
    · rw [← allImagesOf_success imgs (x :: t)]
      simp [settle, step, applySelection, hlen, h1]

/-- One settled user operation preserves the no-stale-entries invariant. -/
theorem syncStep_inv (imgs : String → List String) (s : AppState) (op : UserOp)
    (h1 : s.pending = []) (h2 : ∀ e ∈ s.images, e.breed ∈ s.selectedBreeds) :
    (syncStep imgs s op).pending = []
    ∧ ∀ e ∈ (syncStep imgs s op).images,
        e.breed ∈ (syncStep imgs s op).selectedBreeds := by
  cases op with
  | toggle b =>
    have hsync : syncStep imgs s (UserOp.toggle b)
        = settle imgs (applySelection s (handleBreedSelection s.selectedBreeds b)) := rfl
    rw [hsync]
    have h := settle_applySelection imgs s (handleBreedSelection s.selectedBreeds b) h1
    refine ⟨h.1, fun e he => ?_⟩
    rw [h.2.1]
    rcases h.2.2 with him | ⟨him, _⟩
    · exact galleryFor_breed_mem imgs _ e (him ▸ he)
    · rw [him] at he
      cases he
  | loadRandom l =>
    have hsync : syncStep imgs s (UserOp.loadRandom l)
        = settle imgs (applySelection s (loadRandomBreeds l)) := rfl
    rw [hsync]
    have h := settle_applySelection imgs s (loadRandomBreeds l) h1
    refine ⟨h.1, fun e he => ?_⟩
    rw [h.2.1]
    rcases h.2.2 with him | ⟨him, _⟩
    · exact galleryFor_breed_mem imgs _ e (him ▸ he)
    · rw [him] at he
      cases he
  | search v =>
    have hs : settle imgs (step s (toEv (UserOp.search v))) = step s (toEv (UserOp.search v)) :=
      settle_no_pending imgs _ (by simp [toEv, step, h1])
    unfold syncStep
    rw [hs]
    exact ⟨by simp [toEv, step, h1], by simpa [toEv, step] using h2⟩
  | setBreeds k =>
    have hs : settle imgs (step s (toEv (UserOp.setBreeds k))) = step s (toEv (UserOp.setBreeds k)) :=
      settle_no_pending imgs _ (by simp [toEv, step, h1])
    unfold syncStep
    rw [hs]
    exact ⟨by simp [toEv, step, h1], by simpa [toEv, step] using h2⟩

/-- The no-stale-entries invariant holds along every settled run. -/
theorem syncRun_inv (imgs : String → List String) (ops : List UserOp) :
    ∀ s : AppState, s.pending = [] → (∀ e ∈ s.images, e.breed ∈ s.selectedBreeds) →
      (syncRun imgs s ops).pending = []
      ∧ ∀ e ∈ (syncRun imgs s ops).images,
          e.breed ∈ (syncRun imgs s ops).selectedBreeds := by
  induction ops with
  | nil => exact fun s h1 h2 => ⟨h1, h2⟩
  | cons op t ih =>
    intro s h1 h2
    have h := syncStep_inv imgs s op h1 h2
    exact ih (syncStep imgs s op) h.1 h.2

/-- The deterministic content of loadRandomBreeds: whichever permutation the
engine shuffle produces, the installed selection is a wholesale replacement
consisting of min(3, catalog size) distinct catalog entries. -/
theorem loadRandomBreeds_spec (breeds shuffled : List String)
    (hperm : shuffled.Perm breeds) (hnd : breeds.Nodup) :
    (loadRandomBreeds shuffled).length = min 3 breeds.length
    ∧ (loadRandomBreeds shuffled).Nodup
    ∧ (∀ b ∈ loadRandomBreeds shuffled, b ∈ breeds)
    ∧ ∀ s : AppState, (step s (.loadRandom shuffled)).selectedBreeds
        = loadRandomBreeds shuffled := by
  have hnd' : shuffled.Nodup := hperm.symm.nodup hnd
  refine ⟨?_, (List.take_sublist 3 shuffled).nodup hnd', ?_, ?_⟩
  · rw [loadRandomBreeds, List.length_take, hperm.length_eq]
  · intro b hb
    exact hperm.mem_iff.mp (List.take_subset 3 shuffled hb)
  · intro s
    exact applySelection_selectedBreeds s (loadRandomBreeds shuffled)

/-- Claim C1: a fully successful recompute for the snapshot snap commits, in
insertion order, each breed's fetched URLs paired with the breed name
(fetchImages returns exactly that gallery), with 3 * |snap| entries when
every per-breed response carries 3 URLs; and an empty new selection clears
GalleryState immediately with no request issued. -/
theorem C1_recompute_gallery (s : AppState) (i : Nat) (snap : List String)
    (imgs : String → List String) (hp : s.pending[i]? = some snap)
    (h3 : ∀ b ∈ snap, (imgs b).length = 3) :
    fetchImages snap (fun b => some (imgs b)) = some (galleryFor imgs snap)
    ∧ (step s (.resolveOk i imgs)).images = galleryFor imgs snap
    ∧ (step s (.resolveOk i imgs)).images.length = 3 * snap.length
    ∧ ∀ t : AppState, (applySelection t []).images = []
        ∧ (applySelection t []).pending = t.pending := by
  have hcommit : (step s (.resolveOk i imgs)).images = galleryFor imgs snap := by
    simp [step, hp, allImagesOf_success]
  refine ⟨fetchImages_success imgs snap, hcommit, ?_, ?_⟩
  · rw [hcommit, galleryFor_length imgs snap h3]
  · intro t
    constructor <;> simp [applySelection]

/-- Witness for C1 at a concrete one-breed snapshot. -/
theorem C1_witness :
    (step s1 (Ev.resolveOk 0 urls3)).images = galleryFor urls3 ["akita"]
    ∧ (step s1 (Ev.resolveOk 0 urls3)).images.length
        = 3 * (["akita"] : List String).length := by
  have h := C1_recompute_gallery s1 0 ["akita"] urls3 (by decide) (by decide)
  exact ⟨h.2.1, h.2.2.1⟩

/-- Claim C2 counterexample: selection mutated to S1 = [akita] then
S2 = [akita, beagle] before S1's recompute resolves; the S2 batch resolves
first and the stale S1 batch resolves last, so the finally committed
GalleryState corresponds to S1, not S2 — there is no stale-result discard. -/
theorem C2_counterexample :
    (run initState [Ev.toggle "akita", Ev.toggle "beagle",
        Ev.resolveOk 1 urls3, Ev.resolveOk 0 urls3]).selectedBreeds
      = ["akita", "beagle"]
    ∧ (run initState [Ev.toggle "akita", Ev.toggle "beagle",
        Ev.resolveOk 1 urls3, Ev.resolveOk 0 urls3]).pending = []
    ∧ (run initState [Ev.toggle "akita", Ev.toggle "beagle",
        Ev.resolveOk 1 urls3, Ev.resolveOk 0 urls3]).images
      = galleryFor urls3 ["akita"]
    ∧ (run initState [Ev.toggle "akita", Ev.toggle "beagle",
        Ev.resolveOk 1 urls3, Ev.resolveOk 0 urls3]).images
      ≠ galleryFor urls3 ["akita", "beagle"] := by
  decide

/-- Claim C2 (amended): each resolved recompute commits the full result of
its own snapshot wholesale, so the finally committed GalleryState always
equals the complete gallery of whichever snapshot resolved last — never a
mix of two snapshots — but that snapshot need not be the latest selection. -/
theorem C2_last_resolve_wins (s : AppState) (es : List Ev) (i : Nat)
    (snap : List String) (imgs : String → List String)
    (h : (run s es).pending[i]? = some snap) :
    (run s (es ++ [Ev.resolveOk i imgs])).images = galleryFor imgs snap := by
  rw [run_append]
  simp [run, step, h, allImagesOf_success]

/-- Witness for C2 (amended) at a concrete run. -/
theorem C2_witness :
    (run initState ([Ev.toggle "akita"] ++ [Ev.resolveOk 0 urls3])).images
      = galleryFor urls3 ["akita"] :=
  C2_last_resolve_wins initState [Ev.toggle "akita"] 0 ["akita"] urls3 (by decide)

/-- Claim C3: when an in-flight batch rejects, the whole update is aborted:
GalleryState is unchanged (not cleared, not partially populated), the error
slot receives the fetch error, and fetchImages yields no partial result
when any per-breed fetch fails. -/
theorem C3_failure_keeps_gallery (s : AppState) (i : Nat) (snap : List String)
    (hp : s.pending[i]? = some snap) :
    (step s (.resolveErr i)).images = s.images
    ∧ (step s (.resolveErr i)).error = some "Error fetching images"
    ∧ ∀ (sel : List String) (api : String → Option (List String)),
        (∃ b ∈ sel, api b = none) → fetchImages sel api = none := by
  refine ⟨?_, ?_, fun sel api h => fetchImages_fail sel api h⟩ <;> simp [step, hp]

/-- Witness for C3 at a concrete in-flight state. -/
theorem C3_witness :
    (step s1 (Ev.resolveErr 0)).images = s1.images
    ∧ (step s1 (Ev.resolveErr 0)).error = some "Error fetching images" :=
  ⟨(C3_failure_keeps_gallery s1 0 ["akita"] (by decide)).1,
   (C3_failure_keeps_gallery s1 0 ["akita"] (by decide)).2.1⟩

/-- Claim C4 counterexample: toggle akita on, toggle it off before its
recompute resolves, then let the stale batch resolve; the reached state has
no recompute in flight, an empty SelectionSet, and a gallery entry for the
deselected breed akita. -/
theorem C4_counterexample :
    (run initState [Ev.toggle "akita", Ev.toggle "akita",
        Ev.resolveOk 0 urls3]).pending = []
    ∧ (run initState [Ev.toggle "akita", Ev.toggle "akita",
        Ev.resolveOk 0 urls3]).selectedBreeds = []
    ∧ ImageEntry.mk "akita-1" "akita"
        ∈ (run initState [Ev.toggle "akita", Ev.toggle "akita",
            Ev.resolveOk 0 urls3]).images
    ∧ "akita" ∉ (run initState [Ev.toggle "akita", Ev.toggle "akita",
        Ev.resolveOk 0 urls3]).selectedBreeds := by
  decide

/-- Claim C4 (amended): in every state reached from the initial state by
runs in which each recompute resolves successfully before the next user
operation, no batch is left in flight and every gallery entry's breed is in
the current SelectionSet; the unrestricted claim fails (a failed recompute
keeps the previous gallery, and a stale out-of-order resolve commits a
superseded snapshot). -/
theorem C4_sync_invariant (imgs : String → List String) (ops : List UserOp) :
    (syncRun imgs initState ops).pending = []
    ∧ ∀ e ∈ (syncRun imgs initState ops).images,
        e.breed ∈ (syncRun imgs initState ops).selectedBreeds :=
  syncRun_inv imgs ops initState rfl (fun e he => absurd he (List.not_mem_nil e))

/-- Witness for C4 (amended) at a concrete settled run. -/
theorem C4_witness :
    "akita" ∈ (syncRun urls3 initState [UserOp.toggle "akita"]).selectedBreeds :=
  (C4_sync_invariant urls3 [UserOp.toggle "akita"]).2
    (ImageEntry.mk "akita-1" "akita") (by decide)

/-- Claim C5 counterexample: from the reachable selection [akita, beagle],
toggling akita twice yields [beagle, akita], not the original value, and the
settled gallery differs from the original (same entries, different order). -/
theorem C5_counterexample :
    handleBreedSelection (handleBreedSelection ["akita", "beagle"] "akita") "akita"
      ≠ ["akita", "beagle"]
    ∧ (syncRun urls3 initState
        [UserOp.toggle "akita", UserOp.toggle "beagle"]).selectedBreeds
      = ["akita", "beagle"]
    ∧ (syncRun urls3 initState [UserOp.toggle "akita", UserOp.toggle "beagle",
        UserOp.toggle "akita", UserOp.toggle "akita"]).selectedBreeds
      = ["beagle", "akita"]
    ∧ (syncRun urls3 initState [UserOp.toggle "akita", UserOp.toggle "beagle",
        UserOp.toggle "akita", UserOp.toggle "akita"]).images
      ≠ (syncRun urls3 initState
          [UserOp.toggle "akita", UserOp.toggle "beagle"]).images := by
  decide

/-- Claim C5 (amended): double toggling returns a duplicate-free
SelectionSet to its original value as a set (a permutation; exactly the
original list when the breed was not selected), the settled gallery to a
permutation of its original content, and each toggle still triggers its own
recompute: it either enqueues a fetch for the new selection or clears the
gallery immediately when the selection became empty. -/
theorem C5_double_toggle (sel : List String) (b : String)
    (imgs : String → List String) (hnd : sel.Nodup) :
    (handleBreedSelection (handleBreedSelection sel b) b).Perm sel
    ∧ (b ∉ sel → handleBreedSelection (handleBreedSelection sel b) b = sel)
    ∧ (galleryFor imgs (handleBreedSelection (handleBreedSelection sel b) b)).Perm
        (galleryFor imgs sel)
    ∧ ∀ s : AppState,
        (step s (.toggle b)).pending
            = s.pending ++ [handleBreedSelection s.selectedBreeds b]
        ∨ (handleBreedSelection s.selectedBreeds b = []
            ∧ (step s (.toggle b)).images = []) := by
  have hperm := handleBreedSelection_twice_perm sel b hnd
  refine ⟨hperm, fun h => handleBreedSelection_twice_not_mem sel b h,
    galleryFor_perm imgs hperm, ?_⟩
  intro s
  by_cases h : (handleBreedSelection s.selectedBreeds b).length > 0
  · left
    simp [step, applySelection, h]
  · right
    have hnil : handleBreedSelection s.selectedBreeds b = [] := by
      cases hsel : handleBreedSelection s.selectedBreeds b with
      | nil => rfl
      | cons x t =>
        rw [hsel] at h
        exact absurd (by simp) h
    exact ⟨hnil, by simp [step, applySelection, h]⟩

/-- Witness for C5 (amended) at a concrete selection. -/
theorem C5_witness :
    (handleBreedSelection (handleBreedSelection ["akita"] "beagle") "beagle").Perm
        ["akita"]
    ∧ handleBreedSelection (handleBreedSelection ["akita"] "beagle") "beagle"
        = ["akita"] := by
  have h := C5_double_toggle ["akita"] "beagle" urls3 (by decide)
  exact ⟨h.1, h.2.1 (by decide)⟩

/-- Claim C7: the search handler changes only the stored (lowercased)
search term — SelectionSet, GalleryState and in-flight batches are
untouched — and the picker filter keeps exactly the breeds whose lowercased
name contains the term, e.g. filtering lab keeps labrador only. -/
theorem C7_search_frame (s : AppState) (value : String) :
    (step s (.search value)).selectedBreeds = s.selectedBreeds
    ∧ (step s (.search value)).images = s.images
    ∧ (step s (.search value)).pending = s.pending
    ∧ (step s (.search value)).searchTerm = jsToLower value
    ∧ filteredBreeds ["affenpinscher", "labrador"] "lab" = ["labrador"]
    ∧ ∀ (breeds : List String) (term b : String),
        b ∈ filteredBreeds breeds term
          ↔ b ∈ breeds ∧ strIncludes (jsToLower b) term = true := by
  refine ⟨rfl, rfl, rfl, rfl, by decide, ?_⟩
  intro breeds term b
  simp [filteredBreeds, List.mem_filter]

/-- Witness for C7 at a concrete state and term. -/
theorem C7_witness :
    (step initState (Ev.search "Lab")).selectedBreeds = initState.selectedBreeds
    ∧ (step initState (Ev.search "Lab")).images = initState.images
    ∧ (step initState (Ev.search "Lab")).searchTerm = jsToLower "Lab"
    ∧ filteredBreeds ["affenpinscher", "labrador"] "lab" = ["labrador"] := by
  have h := C7_search_frame initState "Lab"
  exact ⟨h.1, h.2.1, h.2.2.2.1, h.2.2.2.2.1⟩

/-- Claim C8: a successful catalog load installs exactly the sorted
top-level keys of the response: a permutation of the keys, sorted
lexicographically ascending, and non-empty whenever the response carries at
least one breed key (as the modeled endpoint always does). -/
theorem C8_catalog_sorted (keys : List String) (s : AppState) (hne : keys ≠ []) :
    (step s (.breedsOk keys)).breeds = fetchBreeds keys
    ∧ ((step s (.breedsOk keys)).breeds).Perm keys
    ∧ List.Sorted (fun a b => a ≤ b) ((step s (.breedsOk keys)).breeds)
    ∧ (step s (.breedsOk keys)).breeds ≠ [] := by
  have hperm : (fetchBreeds keys).Perm keys :=
    List.perm_insertionSort (fun a b => a ≤ b) keys
  refine ⟨rfl, hperm, List.sorted_insertionSort (fun a b => a ≤ b) keys, ?_⟩
  intro hnil
  apply hne
  have hlen := hperm.length_eq
  rw [show (step s (.breedsOk keys)).breeds = fetchBreeds keys from rfl] at hnil
  rw [hnil] at hlen
  exact List.length_eq_zero.mp hlen.symm

/-- Witness for C8 on a concrete unsorted response. -/
theorem C8_witness :
    (step initState (Ev.breedsOk ["beagle", "akita"])).breeds
        = fetchBreeds ["beagle", "akita"]
    ∧ ((step initState (Ev.breedsOk ["beagle", "akita"])).breeds).Perm
        ["beagle", "akita"]
    ∧ List.Sorted (fun a b => a ≤ b)
        ((step initState (Ev.breedsOk ["beagle", "akita"])).breeds)
    ∧ (step initState (Ev.breedsOk ["beagle", "akita"])).breeds ≠ [] :=
  C8_catalog_sorted ["beagle", "akita"] initState (by decide)

/-- Claim C9 counterexample: the endpoint answers a non-2xx status whose
JSON error body has the string message Not Found; fetchBreeds never checks
response.ok, so the body parses, Object.keys of the string yields its index
strings, and the success path installs a non-empty garbage catalog with no
error surfaced — refuting that a non-2xx status surfaces a FetchError and
leaves the Catalog empty. -/
theorem C9_counterexample :
    jsObjectKeys (JsMessage.str "Not Found")
      = ["0", "1", "2", "3", "4", "5", "6", "7", "8"]
    ∧ (step initState (Ev.breedsOk (jsObjectKeys (JsMessage.str "Not Found")))).error
      = none
    ∧ (step initState (Ev.breedsOk (jsObjectKeys (JsMessage.str "Not Found")))).breeds
      ≠ [] := by
  refine ⟨by decide, rfl, ?_⟩
  intro hnil
  have hperm : (fetchBreeds (jsObjectKeys (JsMessage.str "Not Found"))).Perm
      (jsObjectKeys (JsMessage.str "Not Found")) :=
    List.perm_insertionSort (fun a b => a ≤ b) _
  have hlen := hperm.length_eq
  have hnil' : fetchBreeds (jsObjectKeys (JsMessage.str "Not Found")) = [] := hnil
  rw [hnil'] at hlen
  exact absurd (List.length_eq_zero.mp hlen.symm) (by decide)

/-- Claim C9 (amended): only a catalog fetch failure that rejects the
fetch-and-parse pipeline (network failure, malformed JSON, a body whose
message field makes Object.keys throw) reaches the catch: it sets the error
slot, leaves the catalog empty, issues no image fetch, leaves the gallery
empty, the picker shows no entries for any term, and the UI stays
operational (a search still updates the term). A non-2xx status with a
well-formed JSON body is not treated as a failure: the status is never
checked, so the sorted Object.keys of whatever the message is are installed
as the catalog and the error slot is untouched. -/
theorem C9_catalog_failure (t : String) (m : JsMessage) :
    (run initState [Ev.breedsErr]).error = some "Error fetching breeds"
    ∧ (run initState [Ev.breedsErr]).breeds = []
    ∧ (run initState [Ev.breedsErr]).pending = []
    ∧ (run initState [Ev.breedsErr]).images = []
    ∧ filteredBreeds (run initState [Ev.breedsErr]).breeds t = []
    ∧ (step (run initState [Ev.breedsErr]) (.search t)).searchTerm = jsToLower t
    ∧ (step initState (Ev.breedsOk (jsObjectKeys m))).error = initState.error
    ∧ (step initState (Ev.breedsOk (jsObjectKeys m))).breeds
        = fetchBreeds (jsObjectKeys m) :=
  ⟨rfl, rfl, rfl, rfl, rfl, rfl, rfl, rfl⟩

/-- Witness for C9 (amended) at a concrete term and response body. -/
theorem C9_witness :
    (run initState [Ev.breedsErr]).error = some "Error fetching breeds"
    ∧ filteredBreeds (run initState [Ev.breedsErr]).breeds "lab" = []
    ∧ (step initState (Ev.breedsOk (jsObjectKeys (JsMessage.str "Not Found")))).error
        = initState.error := by
  have h := C9_catalog_failure "lab" (JsMessage.str "Not Found")
  exact ⟨h.1, h.2.2.2.2.1, h.2.2.2.2.2.2.1⟩

/-- Claim C10: on a duplicate-free selection, toggling an unselected breed
appends it at the end, toggling a selected breed removes every occurrence of
it, toggling a selected breed off and on again moves it to the last
position, and the toggled selection stays duplicate-free. -/
theorem C10_toggle_order (sel : List String) (b : String) (hnd : sel.Nodup) :
    (b ∉ sel → handleBreedSelection sel b = sel ++ [b])
    ∧ (b ∈ sel → handleBreedSelection sel b = sel.filter (fun x => x != b)
        ∧ b ∉ handleBreedSelection sel b)
    ∧ (b ∈ sel → handleBreedSelection (handleBreedSelection sel b) b
        = sel.filter (fun x => x != b) ++ [b])
    ∧ (handleBreedSelection sel b).Nodup := by
  refine ⟨fun h => handleBreedSelection_not_mem sel b h,
    fun h => ⟨handleBreedSelection_mem sel b h, ?_⟩,
    fun h => handleBreedSelection_twice_mem sel b h,
    handleBreedSelection_nodup sel b hnd⟩
  rw [handleBreedSelection_mem sel b h]
  exact not_mem_filter_ne sel b

/-- Witness for C10 at a concrete selection. -/
theorem C10_witness :
    handleBreedSelection ["akita", "beagle"] "akita" = ["beagle"]
    ∧ handleBreedSelection (handleBreedSelection ["akita", "beagle"] "akita") "akita"
        = ["beagle", "akita"]
    ∧ (handleBreedSelection ["akita", "beagle"] "akita").Nodup := by
  have h := C10_toggle_order ["akita", "beagle"] "akita" (by decide)
  exact ⟨((h.2.1 (by decide)).1).trans (by decide),
    (h.2.2.1 (by decide)).trans (by decide), h.2.2.2⟩

end DogGallery
